import Mathlib

/-!
Verification development for the GeneticBPE repository
(genetic_bpe/motif_bank.py, genetic_bpe/motif_span_manager.py,
genetic_bpe/tokenizer.py).

Python strings are modelled as `List Char`; a BPE symbol ("token") is
likewise a `List Char`.  Python dicts are modelled as insertion-ordered
association lists with in-place value update (the semantics of CPython
dicts).  Python sets are modelled as `Finset`.  The two float weights
(2.5 and 10.0) and the scores built from them are modelled as rationals:
all values reached by the code are small dyadic rationals, on which
Python float arithmetic is exact.  Timestamps (`pd.Timestamp.now()`) are
modelled as an abstract `Nat` clock value passed to each mutating call.
While-loops are modelled with an explicit fuel argument; a fuel-exhausted
loop returns `none`, and the theorems either hold for every fuel or are
stated for every sufficient fuel.
-/

/-- A BPE symbol: a Python string. -/
abbrev Token := List Char

/-- Convenience conversion from Lean string literals to the character-list
model of Python strings. -/
def cs (s : String) : List Char := s.data

/-- Concatenation of a token list back to a string: Python
`''.join(tokens)`. -/
def joinT (tokens : List Token) : List Char := tokens.flatten

/-- Whether the slice `s[i : i + pat.length]` exists and equals `pat`:
the matching condition of Python `str.find` at candidate index `i`. -/
def matchAt (s pat : List Char) (i : Nat) : Bool :=
  decide (i + pat.length ≤ s.length ∧ (s.drop i).take pat.length = pat)

/-- Scanning core of Python `sequence.find(pat, start)`: try indices
`start, start+1, ...` while they do not exceed `s.length`; the fuel
bounds the number of candidates tried. -/
def strFindAux (s pat : List Char) : Nat → Nat → Option Nat
  | 0, _ => none
  | fuel + 1, start =>
    if start ≤ s.length then
      if matchAt s pat start then some start
      else strFindAux s pat fuel (start + 1)
    else none

/-- Python `sequence.find(pat, start)` (with `none` for `-1`): the least
index `i ≥ start` at which `pat` occurs in `s`, if any.  The fuel
`s.length + 1 - start` covers every remaining candidate index. -/
def strFind (s pat : List Char) (start : Nat) : Option Nat :=
  strFindAux s pat (s.length + 1 - start) start

/-- A motif occurrence `(start, end, motif_id)`,
as produced by `MotifSpanManager.get_motif_spans`. -/
abbrev Span := Nat × Nat × String

/-- One row of `MotifBank.motifs_df` (motif_bank.py).  The dataframe
columns that the algorithms never read (description, references,
confidence, dates) are carried for fidelity of the record shape. -/
structure MotifRow where
  motif_id : String
  sequence : List Char
  category : String
  description : String
  frequency : Nat
  species : Option String
  len : Nat
  discovery_date : Nat
  last_updated : Nat
  confidence_score : ℚ
  references : List String
deriving DecidableEq

/-- The `MotifBank` object: its `motifs_df` dataframe, as an ordered list
of rows.  (The auxiliary `motif_stats` / `motif_cooccurrence` fields of
the Python class are never read by any operation studied here.) -/
structure MotifBank where
  motifs_df : List MotifRow
deriving DecidableEq

/-- Builds a default motif row the way `MotifBank.add_motif` does for the
bootstrap catalog: `length = len(sequence)` unless given, frequency as
passed (0 for all defaults), timestamps set to the creation clock (0 in
this model), confidence 1.0, no references. -/
def mkRow (id : String) (seq : String) (cat : String) (descr : String)
    (species : Option String) : MotifRow :=
  { motif_id := id
    sequence := seq.data
    category := cat
    description := descr
    frequency := 0
    species := species
    len := seq.length
    discovery_date := 0
    last_updated := 0
    confidence_score := 1
    references := [] }

/-- The default motif catalog installed by
`MotifBank._initialize_default_motifs`, in dataframe row order. -/
def defaultBank : MotifBank :=
  { motifs_df :=
      [ mkRow ("seed_2_7") ("NNNNNN") ("seed") ("6-mer seed region") none
      , mkRow ("seed_2_8") ("NNNNNNN") ("seed") ("7-mer seed region") none
      , mkRow ("seed_2_9") ("NNNNNNNN") ("seed") ("8-mer seed region") none
      , mkRow ("conserved_1") ("UGUGA") ("conserved") ("Common conserved sequence") none
      , mkRow ("conserved_2") ("AUGCA") ("conserved") ("Another conserved sequence") none
      , mkRow ("conserved_3") ("UGUGAUA") ("conserved") ("Extended conserved sequence") none
      , mkRow ("conserved_4") ("AGCUAC") ("conserved") ("Conserved seed sequence") none
      , mkRow ("hsa_1") ("UGUGAUA") ("species-specific") ("Human-specific motif") (some ("human"))
      , mkRow ("hsa_2") ("AGCUACAU") ("species-specific") ("Human-specific seed motif") (some ("human"))
      , mkRow ("hsa_3") ("UAGCAGC") ("species-specific") ("Human-specific conserved motif") (some ("human"))
      , mkRow ("mmu_1") ("UGUGAUG") ("species-specific") ("Mouse-specific motif") (some ("mouse"))
      , mkRow ("mmu_2") ("AGCUACAG") ("species-specific") ("Mouse-specific seed motif") (some ("mouse"))
      , mkRow ("mmu_3") ("UAGCAGU") ("species-specific") ("Mouse-specific conserved motif") (some ("mouse"))
      , mkRow ("struct_1") ("UGUGAUACGUGAUA") ("structural") ("Complete miRNA-21 structure") none
      , mkRow ("struct_2") ("UAGCAGCACGUAAAUAUUGGCG") ("structural") ("Complete miRNA-16 structure") none
      , mkRow ("struct_3") ("UUAAUGCUAAUCGUGAUAGGGGU") ("structural") ("Complete miRNA-155 structure") none
      , mkRow ("pattern_1") ("UGUGA") ("pattern") ("Common 5-mer pattern") none
      , mkRow ("pattern_2") ("AGCUAC") ("pattern") ("Common 6-mer pattern") none
      , mkRow ("pattern_3") ("UAGCAGC") ("pattern") ("Common 7-mer pattern") none
      , mkRow ("mir_21") ("UGUGAUACGUGAUA") ("known_mirna") ("miRNA-21 sequence") none
      , mkRow ("mir_16") ("UAGCAGCACGUAAAUAUUGGCG") ("known_mirna") ("miRNA-16 sequence") none
      , mkRow ("mir_155") ("UUAAUGCUAAUCGUGAUAGGGGU") ("known_mirna") ("miRNA-155 sequence") none
      , mkRow ("mir_221") ("AGCUACAUUGUCUGCUGGGUUUC") ("known_mirna") ("miRNA-221 sequence") none
      , mkRow ("mir_222") ("AGCUACAUCUGGCUACUGGGU") ("known_mirna") ("miRNA-222 sequence") none ] }

/-- The `while True: idx = sequence.find(motif_seq, start) ...` loop of
`MotifSpanManager.get_motif_spans`, restarting at `idx + 1` after each
match.  The restart position strictly increases and never exceeds
`s.length`, so fuel `s.length + 1` covers every iteration. -/
def spansLoop (s pat : List Char) (id : String) : Nat → Nat → List Span
  | 0, _ => []
  | fuel + 1, start =>
    match strFind s pat start with
    | none => []
    | some idx => (idx, idx + pat.length, id) :: spansLoop s pat id fuel (idx + 1)

/-- `MotifSpanManager.get_motif_spans`: all `(start, end, motif_id)`
occurrences of every motif of the bank in `s`, per bank row, in
ascending position order within a row. -/
def MotifSpanManager.get_motif_spans (bank : MotifBank) (s : List Char) : List Span :=
  bank.motifs_df.flatMap (fun m => spansLoop s m.sequence m.motif_id (s.length + 1) 0)

/-- `MotifSpanManager.is_pair_inside_motif`: the pair interval lies
inside some span. -/
def MotifSpanManager.is_pair_inside_motif (pair_start pair_end : Nat)
    (motif_spans : List Span) : Bool :=
  motif_spans.any (fun sp => decide (sp.1 ≤ pair_start ∧ pair_end ≤ sp.2.1))

/-- `MotifSpanManager.is_pair_crossing_motif_boundary`: the pair interval
strictly straddles the end or the start of some span. -/
def MotifSpanManager.is_pair_crossing_motif_boundary (pair_start pair_end : Nat)
    (motif_spans : List Span) : Bool :=
  motif_spans.any (fun sp =>
    decide ((pair_start < sp.2.1 ∧ sp.2.1 < pair_end) ∨ (pair_start < sp.1 ∧ sp.1 < pair_end)))

/-- In-place update of a CPython dict entry, creating the entry at the
end in insertion order if the key is absent: the effect of
`d[k] = f(d.get(k, dflt))`, and of `defaultdict` mutation. -/
def dictUpdate {κ β : Type} [DecidableEq κ] (k : κ) (dflt : β) (f : β → β) :
    List (κ × β) → List (κ × β)
  | [] => [(k, f dflt)]
  | (k1, v) :: rest =>
    if k1 = k then (k1, f v) :: rest else (k1, v) :: dictUpdate k dflt f rest

/-- Unconditional dict assignment `d[k] = v`. -/
def dictSet {κ β : Type} [DecidableEq κ] (k : κ) (v : β) (d : List (κ × β)) :
    List (κ × β) :=
  dictUpdate k v (fun _ => v) d

/-- Updates the motif dataframe in place, the effect of the two
`self.motifs_df.loc[self.motifs_df['motif_id'] == ..., ...]` assignments
in `MotifBank.find_motifs_in_sequence`: every row carrying the given id
gets its frequency incremented and its last_updated timestamp set to the
call time. -/
def bumpRow (id : String) (now : Nat) (rows : List MotifRow) : List MotifRow :=
  rows.map (fun r =>
    if r.motif_id = id then
      { r with frequency := r.frequency + 1, last_updated := now }
    else r)

/-- `MotifBank.find_motifs_in_sequence`: returns the rows whose motif
sequence occurs in `s` (Python substring membership), and — as a side
effect — increments the frequency and touches the last_updated timestamp
of each found motif.  The returned rows are those of the dataframe at
call time, in row order (the mutation only ever touches a found row's
own id, so with unique ids it never affects a row before it is
yielded). -/
def MotifBank.find_motifs_in_sequence (bank : MotifBank) (s : List Char)
    (now : Nat) : List MotifRow × MotifBank :=
  let found := bank.motifs_df.filter (fun m => (strFind s m.sequence 0).isSome)
  (found, { motifs_df := found.foldl (fun rows m => bumpRow m.motif_id now rows) bank.motifs_df })

/-- The state of a `GeneticBPETokenizer` object. -/
structure Tokenizer where
  vocab_size : Nat
  min_freq : Nat
  motif_weight : ℚ
  penalty_weight : ℚ
  vocab : Finset Token
  merges : List (Token × Nat)
  token_frequencies : List (Token × Nat)
deriving DecidableEq

/-- A fresh `GeneticBPETokenizer(vocab_size, min_freq)` with no config
file present, hence the default weights `motif_weight = 2.5` and
`penalty_weight = 10.0`.  The rational 2.5 is written as the literal
`5/2` in lowest terms (theorem `mkTokenizer_motif_weight` below checks
it equals `5 / 2`), which keeps equality of tokenizer states
kernel-decidable. -/
def mkTokenizer (vocab_size min_freq : Nat) : Tokenizer :=
  { vocab_size := vocab_size
    min_freq := min_freq
    motif_weight := Rat.mk' 5 2 (by decide) (by decide)
    penalty_weight := 10
    vocab := ∅
    merges := []
    token_frequencies := [] }

/-- The adjacent concatenations `tokens[i] + tokens[i+1]` of a token
list, in position order. -/
def adjPairs (tokens : List Token) : List Token :=
  (tokens.zip tokens.tail).map (fun p => p.1 ++ p.2)

/-- `GeneticBPETokenizer._get_pairs`: the frequency dict of adjacent
pair concatenations, keyed in first-occurrence order. -/
def get_pairs (tokens : List Token) : List (Token × Nat) :=
  (adjPairs tokens).foldl (fun d pair => dictUpdate pair 0 (fun n => n + 1) d) []

/-- Python `max(items, key=lambda x: x[1])`: the first item whose value
is maximal (a later item replaces the current best only when strictly
greater). -/
def maxBySnd {α β : Type} [LT β] [DecidableRel (fun a b : β => a < b)] :
    List (α × β) → Option (α × β)
  | [] => none
  | x :: xs =>
    match maxBySnd xs with
    | none => some x
    | some m => if x.2 < m.2 then some m else some x

/-- One left-to-right greedy merge pass over a token list: the inner
`while i < len(tokens)` rewrite of `_tokenize_subsequence`, replacing
every non-overlapping adjacent occurrence of `bp` and advancing by two
symbols after a merge. -/
def mergeAll (bp : Token) : List Token → List Token
  | a :: b :: rest =>
    if a ++ b = bp then bp :: mergeAll bp rest
    else a :: mergeAll bp (b :: rest)
  | l => l

/-- The outer `while len(tokens) > 1` replay loop of
`_tokenize_subsequence`: find the most frequent adjacent pair of the
current token list; stop when there are no pairs or the most frequent
pair is not a key of the learned merge table, otherwise merge it
everywhere and repeat.  Each executed iteration strictly shrinks the
token list, so fuel `tokens.length` covers every iteration the Python
loop can perform. -/
def bpeLoopFuel (merges : List (Token × Nat)) : Nat → List Token → List Token
  | 0, tokens => tokens
  | fuel + 1, tokens =>
    if 1 < tokens.length then
      match maxBySnd (get_pairs tokens) with
      | none => tokens
      | some bp =>
        if (merges.map Prod.fst).contains bp.1 then
          bpeLoopFuel merges fuel (mergeAll bp.1 tokens)
        else tokens
    else tokens

/-- `GeneticBPETokenizer._tokenize_subsequence`: start from the single
characters of the gap and replay merges as above. -/
def tokenize_subsequence (merges : List (Token × Nat)) (sub : List Char) : List Token :=
  bpeLoopFuel merges sub.length (sub.map (fun c => [c]))

/-- The `motif_positions` list built by `GeneticBPETokenizer.tokenize`:
for every found motif row, the position of the FIRST occurrence of its
sequence in `s` (`sequence.find(motif['sequence'])`), paired with the
motif text; rows whose sequence is not found are dropped (dead branch:
every found row does occur). -/
def motifPositions (found : List MotifRow) (s : List Char) : List (Nat × Token) :=
  found.filterMap (fun m => (strFind s m.sequence 0).map (fun p => (p, m.sequence)))

/-- Stable insertion of an element into a position-sorted list: an
element moves left past entries with a strictly larger key only, so
equal keys keep their original relative order, as Python
`list.sort(key=lambda x: x[0])` guarantees. -/
def insertByPos (x : Nat × Token) : List (Nat × Token) → List (Nat × Token)
  | [] => [x]
  | y :: ys => if y.1 < x.1 then y :: insertByPos x ys else x :: y :: ys

/-- Stable sort by start position (Python
`motif_positions.sort(key=lambda x: x[0])`). -/
def sortByPos (l : List (Nat × Token)) : List (Nat × Token) :=
  l.foldr insertByPos []

/-- The emission loop of `GeneticBPETokenizer.tokenize`: walk the sorted
`(pos, motif)` list keeping a `current_pos` cursor; before a motif whose
position strictly exceeds the cursor, BPE-replay the gap slice; then
always emit the motif text as one atomic token and move the cursor to
`pos + len(motif)`; finally replay the remaining suffix when the cursor
has not reached the end. -/
def tokenizeLoop (merges : List (Token × Nat)) (s : List Char) :
    List (Nat × Token) → Nat → List Token
  | [], cur =>
    if cur < s.length then tokenize_subsequence merges (s.drop cur) else []
  | (pos, motif) :: rest, cur =>
    (if cur < pos then tokenize_subsequence merges ((s.drop cur).take (pos - cur)) else [])
      ++ motif :: tokenizeLoop merges s rest (pos + motif.length)

/-- `GeneticBPETokenizer.tokenize`: find the motifs of the sequence
(with the frequency side effect on the bank), locate each found row by a
first-occurrence search, sort stably by position, and emit motif tokens
and BPE-replayed gaps.  Returns the token list and the mutated bank. -/
def tokenize (tk : Tokenizer) (bank : MotifBank) (s : List Char) (now : Nat) :
    List Token × MotifBank :=
  let fm := bank.find_motifs_in_sequence s now
  (tokenizeLoop tk.merges s (sortByPos (motifPositions fm.1 s)) 0, fm.2)

/-- Interval bookkeeping for a run of consecutive tokens starting at
character offset `off`: each token occupies the next `len(token)`
characters. -/
def withIntervals (off : Nat) : List Token → List (Token × Nat × Nat)
  | [] => []
  | t :: ts => (t, off, off + t.length) :: withIntervals (off + t.length) ts

/-- Instrumented emission loop: identical control flow to
`tokenizeLoop`, but each emitted token is paired with the half-open
character interval of the original sequence it was produced from (for a
motif token, `(pos, pos + len(motif))`, the interval the code consumes
via `current_pos = pos + len(motif)`; for gap tokens, consecutive
intervals of the gap slice) and with a flag marking motif emissions. -/
def tokenizeInstrLoop (merges : List (Token × Nat)) (s : List Char) :
    List (Nat × Token) → Nat → List (Token × Nat × Nat × Bool)
  | [], cur =>
    if cur < s.length then
      (withIntervals cur (tokenize_subsequence merges (s.drop cur))).map
        (fun x => (x.1, x.2.1, x.2.2, false))
    else []
  | (pos, motif) :: rest, cur =>
    (if cur < pos then
      (withIntervals cur (tokenize_subsequence merges ((s.drop cur).take (pos - cur)))).map
        (fun x => (x.1, x.2.1, x.2.2, false))
     else [])
      ++ (motif, pos, pos + motif.length, true) :: tokenizeInstrLoop merges s rest (pos + motif.length)

/-- `tokenize` with interval instrumentation; erases to `tokenize`
(theorem `tokenizeInstr_erases` below). -/
def tokenizeInstr (tk : Tokenizer) (bank : MotifBank) (s : List Char) (now : Nat) :
    List (Token × Nat × Nat × Bool) × MotifBank :=
  let fm := bank.find_motifs_in_sequence s now
  (tokenizeInstrLoop tk.merges s (sortByPos (motifPositions fm.1 s)) 0, fm.2)

/-- Python runtime errors reachable in the modelled code. -/
inductive PyError where
  | attributeError
deriving DecidableEq

deriving instance DecidableEq for Except

/-- `GeneticBPETokenizer._get_motif_spans` calls
`self.motif_bank.get_motif_spans(sequence)`, but the `MotifBank` class
(motif_bank.py) defines no attribute named `get_motif_spans` — the
method of that name exists only on `MotifSpanManager`, which the
tokenizer never constructs.  The attribute lookup therefore raises
`AttributeError` at call time, modelled as an error value. -/
def tokenizer_get_motif_spans (_bank : MotifBank) (_s : List Char) :
    Except PyError (List Span) :=
  Except.error PyError.attributeError

/-- `self.motif_bank.is_pair_inside_motif(...)` in
`_get_pairs_with_scores`: `MotifBank` defines no such attribute either
(it exists only on `MotifSpanManager`), so the call raises
`AttributeError`.  (In the actual control flow this lookup is dead code:
the spans lookup above raises first.) -/
def bank_is_pair_inside_motif (_bank : MotifBank) (_ps _pe : Nat)
    (_spans : List Span) : Except PyError Bool :=
  Except.error PyError.attributeError

/-- `self.motif_bank.is_pair_crossing_motif_boundary(...)`: same missing
attribute situation as `bank_is_pair_inside_motif`. -/
def bank_is_pair_crossing_motif_boundary (_bank : MotifBank) (_ps _pe : Nat)
    (_spans : List Span) : Except PyError Bool :=
  Except.error PyError.attributeError

/-- Per-pair statistics accumulated by `_get_pairs_with_scores`. -/
structure PairStats where
  freq : Nat
  bonus : Nat
  penalty : Nat
deriving DecidableEq

/-- The inner `for i in range(len(tokens) - 1)` loop of
`_get_pairs_with_scores`, over the single characters of one sequence
(`tokens = list(seq)`), with the symbol index `i` tracked alongside the
remaining characters.  The two classification calls go through the
missing `MotifBank` attributes. -/
def countPairsAux (bank : MotifBank) (spans : List Span) :
    Nat → List Char → List (Token × PairStats) → Except PyError (List (Token × PairStats))
  | _, [], stats => Except.ok stats
  | _, [_], stats => Except.ok stats
  | i, a :: b :: rest, stats => do
    let pair : Token := [a] ++ [b]
    let stats := dictUpdate pair ⟨0, 0, 0⟩ (fun st => { st with freq := st.freq + 1 }) stats
    let inside ← bank_is_pair_inside_motif bank i (i + 2) spans
    let stats :=
      if inside then dictUpdate pair ⟨0, 0, 0⟩ (fun st => { st with bonus := st.bonus + 1 }) stats
      else stats
    let crossing ← bank_is_pair_crossing_motif_boundary bank i (i + 2) spans
    let stats :=
      if crossing then dictUpdate pair ⟨0, 0, 0⟩ (fun st => { st with penalty := st.penalty + 1 }) stats
      else stats
    countPairsAux bank spans (i + 1) (b :: rest) stats

/-- Score formula of `_get_pairs_with_scores`:
`freq + motif_weight * bonus - penalty_weight * penalty`. -/
def scoreOf (tk : Tokenizer) (st : PairStats) : ℚ :=
  (st.freq : ℚ) + tk.motif_weight * (st.bonus : ℚ) - tk.penalty_weight * (st.penalty : ℚ)

/-- `GeneticBPETokenizer._get_pairs_with_scores`: for each sequence,
split it into single characters, fetch its motif spans through the
missing `MotifBank` attribute (which raises), accumulate pair
statistics, then map the stats dict to scores. -/
def get_pairs_with_scores (tk : Tokenizer) (bank : MotifBank)
    (sequences : List (List Char)) : Except PyError (List (Token × ℚ)) := do
  let stats ← sequences.foldlM
    (fun stats seq => do
      let spans ← tokenizer_get_motif_spans bank seq
      countPairsAux bank spans 0 seq stats)
    ([] : List (Token × PairStats))
  Except.ok (stats.map (fun p => (p.1, scoreOf tk p.2)))

/-- Mutable state of the training loop in `GeneticBPETokenizer.train`. -/
structure TrainState where
  corpus : List (List Token)
  merges : List (Token × Nat)
  current_vocab : Finset Token
deriving DecidableEq

/-- The per-sequence merge-application loop of `train`: scan the symbol
list left to right with symbol index `i`; at an occurrence of the best
pair, consult the (missing) crossing predicate — skipping the merge and
advancing one symbol when it answers true, merging and advancing two
symbols otherwise. -/
def mergeSeqAux (bank : MotifBank) (best : Token) (spans : List Span) :
    Nat → List Token → Except PyError (List Token)
  | _, [] => Except.ok []
  | _, [a] => Except.ok [a]
  | i, a :: b :: rest =>
    if a ++ b = best then do
      let crossing ← bank_is_pair_crossing_motif_boundary bank i (i + 2) spans
      if crossing then do
        let r ← mergeSeqAux bank best spans (i + 1) (b :: rest)
        Except.ok (a :: r)
      else do
        let r ← mergeSeqAux bank best spans (i + 2) rest
        Except.ok (best :: r)
    else do
      let r ← mergeSeqAux bank best spans (i + 1) (b :: rest)
      Except.ok (a :: r)

/-- One iteration of the `while len(current_vocab) < self.vocab_size`
body of `train`: compute scores of the re-joined corpus, break when the
score dict is empty or the best score is non-positive (`Sum.inr`),
otherwise rewrite every corpus sequence and record the merge
(`Sum.inl`). -/
def trainBody (tk : Tokenizer) (bank : MotifBank) (st : TrainState) :
    Except PyError (TrainState ⊕ TrainState) := do
  let pair_scores ← get_pairs_with_scores tk bank (st.corpus.map joinT)
  match maxBySnd pair_scores with
  | none => Except.ok (Sum.inr st)
  | some best =>
    if best.2 ≤ 0 then Except.ok (Sum.inr st)
    else do
      let newCorpus ← st.corpus.mapM (fun seq => do
        let spans ← tokenizer_get_motif_spans bank (joinT seq)
        mergeSeqAux bank best.1 spans 0 seq)
      Except.ok (Sum.inl
        { corpus := newCorpus
          merges := dictSet best.1 st.merges.length st.merges
          current_vocab := insert best.1 st.current_vocab })

/-- The training while-loop, with explicit fuel; `none` means the fuel
ran out before the loop left its body (which, for the code as written,
never happens: every run either raises `AttributeError` in its first
iteration or breaks out of its first iteration). -/
def trainLoop (tk : Tokenizer) (bank : MotifBank) :
    Nat → TrainState → Option (Except PyError TrainState)
  | 0, _ => none
  | fuel + 1, st =>
    if st.current_vocab.card < tk.vocab_size then
      match trainBody tk bank st with
      | Except.error e => some (Except.error e)
      | Except.ok (Sum.inl st2) => trainLoop tk bank fuel st2
      | Except.ok (Sum.inr st2) => some (Except.ok st2)
    else some (Except.ok st)

/-- The `self.token_frequencies[token] += 1` counting pass of `train`,
over the single characters of every sequence, starting from the
tokenizer's existing counter dict. -/
def tokenFreqCount (init : List (Token × Nat)) (sequences : List (List Char)) :
    List (Token × Nat) :=
  sequences.foldl
    (fun d seq => seq.foldl (fun d c => dictUpdate ([c]) 0 (fun n => n + 1) d) d) init

/-- The initial vocabulary of `train`:
`{token for token, freq in self.token_frequencies.items() if freq >= self.min_freq}`. -/
def initialVocab (tf : List (Token × Nat)) (min_freq : Nat) : Finset Token :=
  ((tf.filter (fun p => min_freq ≤ p.2)).map Prod.fst).toFinset

/-- `GeneticBPETokenizer.train`: count token frequencies, build the
initial vocabulary, run the merge loop over the corpus of
single-character symbol lists, and on normal exit store the merge table
and final vocabulary on the tokenizer.  An `Except.error` result models
the `AttributeError` propagating out of `train`; in that case no merge
was recorded (the partial mutation of `token_frequencies` performed
before the raise is not represented by the error value). -/
def train (tk : Tokenizer) (bank : MotifBank) (sequences : List (List Char))
    (fuel : Nat) : Option (Except PyError Tokenizer) :=
  let tf := tokenFreqCount tk.token_frequencies sequences
  let vocab := initialVocab tf tk.min_freq
  match trainLoop tk bank fuel
      { corpus := sequences.map (fun s => s.map (fun c => [c]))
        merges := []
        current_vocab := vocab } with
  | none => none
  | some (Except.error e) => some (Except.error e)
  | some (Except.ok st) =>
    some (Except.ok
      { tk with
        vocab := st.current_vocab
        merges := st.merges
        token_frequencies := tf })

/-- The JSON document written by `GeneticBPETokenizer.save`: a flat
object holding `vocab_size`, `min_freq`, the vocabulary as a list
(`list(self.vocab)` — some enumeration of the set), the merge dict in
its insertion (= rank) order, and the token frequency dict.
`json.dump` / `json.load` of this flat document of strings and integers
preserve every field value and the dict key order exactly. -/
structure TokenizerDoc where
  vocab_size : Nat
  min_freq : Nat
  vocab : List Token
  merges : List (Token × Nat)
  token_frequencies : List (Token × Nat)
deriving DecidableEq

/-- `GeneticBPETokenizer.save`: serialize the state.  `vocabList` is the
enumeration order Python happens to produce for `list(self.vocab)`; any
enumeration of the vocabulary set is admissible. -/
def save (tk : Tokenizer) (vocabList : List Token) : TokenizerDoc :=
  { vocab_size := tk.vocab_size
    min_freq := tk.min_freq
    vocab := vocabList
    merges := tk.merges
    token_frequencies := tk.token_frequencies }

/-- `GeneticBPETokenizer.load`: restore `vocab_size`, `min_freq`, the
vocabulary as a set (`set(state['vocab'])`), the merge dict as loaded
(order preserved), and the token frequency counter. -/
def load (tk : Tokenizer) (doc : TokenizerDoc) : Tokenizer :=
  { tk with
    vocab_size := doc.vocab_size
    min_freq := doc.min_freq
    vocab := doc.vocab.toFinset
    merges := doc.merges
    token_frequencies := doc.token_frequencies }

/-- Modelled from the spec: the statistics pass of
`_get_pairs_with_scores` exactly as written in tokenizer.py, but with
the three operations missing from `MotifBank` (`get_motif_spans`,
`is_pair_inside_motif`, `is_pair_crossing_motif_boundary`) bound to the
implementations `MotifSpanManager` provides for them — the repair the
tokenizer's calls presuppose.  Used to exhibit behaviour of the
training statistics that is independent of the missing-attribute
crash. -/
def countPairsFixedAux (spans : List Span) :
    Nat → List Char → List (Token × PairStats) → List (Token × PairStats)
  | _, [], stats => stats
  | _, [_], stats => stats
  | i, a :: b :: rest, stats =>
    let pair : Token := [a] ++ [b]
    let stats := dictUpdate pair ⟨0, 0, 0⟩ (fun st => { st with freq := st.freq + 1 }) stats
    let stats :=
      if MotifSpanManager.is_pair_inside_motif i (i + 2) spans then
        dictUpdate pair ⟨0, 0, 0⟩ (fun st => { st with bonus := st.bonus + 1 }) stats
      else stats
    let stats :=
      if MotifSpanManager.is_pair_crossing_motif_boundary i (i + 2) spans then
        dictUpdate pair ⟨0, 0, 0⟩ (fun st => { st with penalty := st.penalty + 1 }) stats
      else stats
    countPairsFixedAux spans (i + 1) (b :: rest) stats

/-- Modelled from the spec: `_get_pairs_with_scores` with the missing
span operations repaired as in `countPairsFixedAux`.  Note that, as in
the source, each sequence is split into SINGLE CHARACTERS
(`tokens = list(seq)`) before pairs are counted. -/
def get_pairs_with_scores_fixed (tk : Tokenizer) (bank : MotifBank)
    (sequences : List (List Char)) : List (Token × ℚ) :=
  (sequences.foldl
    (fun stats seq =>
      countPairsFixedAux (MotifSpanManager.get_motif_spans bank seq) 0 seq stats)
    ([] : List (Token × PairStats))).map (fun p => (p.1, scoreOf tk p.2))

/-- Modelled from the spec: the per-iteration pair statistics the spec
prescribes — computed over the adjacent pairs of the CURRENT corpus
symbols (possibly multi-character merged tokens), each pair occupying
the half-open character interval starting at the cumulative character
offset of its first symbol, classified against the motif spans of the
re-joined sequence. -/
def specCountSymbolPairsAux (spans : List Span) :
    Nat → List Token → List (Token × PairStats) → List (Token × PairStats)
  | _, [], stats => stats
  | _, [_], stats => stats
  | off, a :: b :: rest, stats =>
    let pair : Token := a ++ b
    let ps := off
    let pe := off + a.length + b.length
    let stats := dictUpdate pair ⟨0, 0, 0⟩ (fun st => { st with freq := st.freq + 1 }) stats
    let stats :=
      if MotifSpanManager.is_pair_inside_motif ps pe spans then
        dictUpdate pair ⟨0, 0, 0⟩ (fun st => { st with bonus := st.bonus + 1 }) stats
      else stats
    let stats :=
      if MotifSpanManager.is_pair_crossing_motif_boundary ps pe spans then
        dictUpdate pair ⟨0, 0, 0⟩ (fun st => { st with penalty := st.penalty + 1 }) stats
      else stats
    specCountSymbolPairsAux spans (off + a.length) (b :: rest) stats

/-- Modelled from the spec: scores of the current-symbol pair statistics
over a whole corpus of symbol sequences. -/
def specSymbolPairScores (tk : Tokenizer) (bank : MotifBank)
    (corpus : List (List Token)) : List (Token × ℚ) :=
  (corpus.foldl
    (fun stats seq =>
      specCountSymbolPairsAux (MotifSpanManager.get_motif_spans bank (joinT seq)) 0 seq stats)
    ([] : List (Token × PairStats))).map (fun p => (p.1, scoreOf tk p.2))

/-- Modelled from the spec: the merge-application scan of `train` with
the missing crossing predicate bound to `MotifSpanManager`'s
implementation. -/
def mergeSeqFixedAux (best : Token) (spans : List Span) :
    Nat → List Token → List Token
  | _, [] => []
  | _, [a] => [a]
  | i, a :: b :: rest =>
    if a ++ b = best then
      if MotifSpanManager.is_pair_crossing_motif_boundary i (i + 2) spans then
        a :: mergeSeqFixedAux best spans (i + 1) (b :: rest)
      else
        best :: mergeSeqFixedAux best spans (i + 2) rest
    else
      a :: mergeSeqFixedAux best spans (i + 1) (b :: rest)

/-- Modelled from the spec: the body of the training loop with the three
missing `MotifBank` operations repaired as above; everything else is as
in tokenizer.py, in particular the statistics are still taken over the
re-joined corpus strings. -/
def trainBodyFixed (tk : Tokenizer) (bank : MotifBank) (st : TrainState) :
    TrainState ⊕ TrainState :=
  let pair_scores := get_pairs_with_scores_fixed tk bank (st.corpus.map joinT)
  match maxBySnd pair_scores with
  | none => Sum.inr st
  | some best =>
    if best.2 ≤ 0 then Sum.inr st
    else
      Sum.inl
        { corpus := st.corpus.map (fun seq =>
            mergeSeqFixedAux best.1
              (MotifSpanManager.get_motif_spans bank (joinT seq)) 0 seq)
          merges := dictSet best.1 st.merges.length st.merges
          current_vocab := insert best.1 st.current_vocab }

/-- Modelled from the spec: the training while-loop over the repaired
body, with fuel; `none` means the fuel ran out with the loop condition
still true. -/
def trainLoopFixed (tk : Tokenizer) (bank : MotifBank) :
    Nat → TrainState → Option TrainState
  | 0, _ => none
  | fuel + 1, st =>
    if st.current_vocab.card < tk.vocab_size then
      match trainBodyFixed tk bank st with
      | Sum.inl st2 => trainLoopFixed tk bank fuel st2
      | Sum.inr st2 => some st2
    else some st

/-- Python `min(items, key=...)`-style first minimum by rank, used by
the rank-order replay model below. -/
def minBySnd {α : Type} : List (α × Nat) → Option (α × Nat)
  | [] => none
  | x :: xs =>
    match minBySnd xs with
    | none => some x
    | some m => if m.2 < x.2 then some m else some x

/-- Modelled from the spec: gap replay in RANK order — iteratively apply
the lowest-rank merge of the table whose pair is adjacent in the current
token list, stopping when no merge of the table is applicable.  This is
the replay algorithm the spec describes for `_tokenize_subsequence`,
stated for comparison with the code's frequency-driven replay. -/
def rankReplayFuel (merges : List (Token × Nat)) : Nat → List Token → List Token
  | 0, tokens => tokens
  | fuel + 1, tokens =>
    match minBySnd (merges.filter (fun p => (adjPairs tokens).contains p.1)) with
    | none => tokens
    | some e => rankReplayFuel merges fuel (mergeAll e.1 tokens)

/-- Modelled from the spec: rank-order replay of a gap from its single
characters; fuel `sub.length` covers every possible iteration since each
applied merge shrinks the token list. -/
def rankReplay (merges : List (Token × Nat)) (sub : List Char) : List Token :=
  rankReplayFuel merges sub.length (sub.map (fun c => [c]))

/-- A registry holding a single motif whose sequence is the empty
string, as `add_motif("m0", "", "pattern")` constructs (no validation in
`MotifBank.add_motif` prevents the empty sequence). -/
def emptySeqBank : MotifBank :=
  { motifs_df := [mkRow ("m0") ("") ("pattern") ("degenerate motif") none] }

/-- The training state reached after two repaired-model iterations of
`train` on the corpus `["AAAA"]` with `vocab_size = 10, min_freq = 1`:
the corpus is fully merged into `AA` symbols, and from here every
further iteration reproduces exactly this state (the statistics are
recomputed from the re-joined corpus, which no merge changes). -/
def divergedState : TrainState :=
  { corpus := [[cs ("AA"), cs ("AA")]]
    merges := [(cs ("AA"), 1)]
    current_vocab := {cs ("AA"), cs ("A")} }

/-! ### Generic lemmas about the dict and list helpers -/

theorem dictUpdate_mem {κ β : Type} [DecidableEq κ] {p : κ × β} {k : κ} {dflt : β}
    {f : β → β} {d : List (κ × β)} (hp : p ∈ dictUpdate k dflt f d) :
    p.1 = k ∨ p.1 ∈ d.map Prod.fst := by
  induction d with
  | nil =>
    simp only [dictUpdate, List.mem_singleton] at hp
    exact Or.inl (by rw [hp])
  | cons q rest ih =>
    obtain ⟨k1, v⟩ := q
    by_cases hk : k1 = k
    · rw [dictUpdate, if_pos hk] at hp
      rcases List.mem_cons.mp hp with h | h
      · exact Or.inl (by rw [h, hk])
      · exact Or.inr (List.mem_cons_of_mem _ (List.mem_map_of_mem Prod.fst h))
    · rw [dictUpdate, if_neg hk] at hp
      rcases List.mem_cons.mp hp with h | h
      · exact Or.inr (by rw [h]; exact List.mem_cons_self _ _)
      · rcases ih h with h2 | h2
        · exact Or.inl h2
        · exact Or.inr (List.mem_cons_of_mem _ h2)

theorem foldl_dictUpdate_mem {β : Type} (dflt : β) (f : β → β) :
    ∀ (l : List Token) (init : List (Token × β)) (p : Token × β),
      p ∈ l.foldl (fun d x => dictUpdate x dflt f d) init →
      p.1 ∈ init.map Prod.fst ∨ p.1 ∈ l := by
  intro l
  induction l with
  | nil => intro init p hp; exact Or.inl (List.mem_map_of_mem Prod.fst hp)
  | cons a l ih =>
    intro init p hp
    rcases ih (dictUpdate a dflt f init) p hp with h | h
    · rcases List.mem_map.mp h with ⟨q, hq, hq1⟩
      rcases dictUpdate_mem hq with h2 | h2
      · exact Or.inr (by rw [← hq1, h2]; exact List.mem_cons_self _ _)
      · exact Or.inl (hq1 ▸ h2)
    · exact Or.inr (List.mem_cons_of_mem _ h)

theorem get_pairs_keys {p : Token × Nat} {tokens : List Token}
    (hp : p ∈ get_pairs tokens) : p.1 ∈ adjPairs tokens := by
  rcases foldl_dictUpdate_mem 0 (fun n => n + 1) (adjPairs tokens) [] p hp with h | h
  · simp at h
  · exact h

theorem maxBySnd_mem {α β : Type} [LT β] [DecidableRel (fun a b : β => a < b)] :
    ∀ {l : List (α × β)} {x : α × β}, maxBySnd l = some x → x ∈ l := by
  intro l
  induction l with
  | nil => intro x h; simp [maxBySnd] at h
  | cons a l ih =>
    intro x h
    cases hm : maxBySnd l with
    | none =>
      simp only [maxBySnd, hm] at h
      cases h
      exact List.mem_cons_self _ _
    | some m =>
      simp only [maxBySnd, hm] at h
      split at h
      · cases h; exact List.mem_cons_of_mem _ (ih hm)
      · cases h; exact List.mem_cons_self _ _

theorem minBySnd_mem {α : Type} :
    ∀ {l : List (α × Nat)} {x : α × Nat}, minBySnd l = some x → x ∈ l := by
  intro l
  induction l with
  | nil => intro x h; simp [minBySnd] at h
  | cons a l ih =>
    intro x h
    cases hm : minBySnd l with
    | none =>
      simp only [minBySnd, hm] at h
      cases h
      exact List.mem_cons_self _ _
    | some m =>
      simp only [minBySnd, hm] at h
      split at h
      · cases h; exact List.mem_cons_of_mem _ (ih hm)
      · cases h; exact List.mem_cons_self _ _

theorem mergeAll_join (bp : Token) :
    ∀ l : List Token, joinT (mergeAll bp l) = joinT l := by
  intro l
  induction l using mergeAll.induct bp with
  | case1 a b rest h ih =>
    simp only [joinT] at ih
    show joinT (if a ++ b = bp then bp :: mergeAll bp rest else a :: mergeAll bp (b :: rest)) = _
    rw [if_pos h]
    simp only [joinT, List.flatten_cons]
    rw [ih, ← List.append_assoc, h]
  | case2 a b rest h ih =>
    simp only [joinT, List.flatten_cons] at ih
    show joinT (if a ++ b = bp then bp :: mergeAll bp rest else a :: mergeAll bp (b :: rest)) = _
    rw [if_neg h]
    simp only [joinT, List.flatten_cons]
    rw [ih]
  | case3 l h =>
    cases l with
    | nil => rfl
    | cons a t =>
      cases t with
      | nil => rfl
      | cons b r => exact (h a b r rfl).elim

theorem mergeAll_sub (bp : Token) :
    ∀ (l : List Token) (t : Token), t ∈ mergeAll bp l → t = bp ∨ t ∈ l := by
  intro l
  induction l using mergeAll.induct bp with
  | case1 a b rest h ih =>
    intro t ht
    rw [show mergeAll bp (a :: b :: rest) = bp :: mergeAll bp rest from by
      show (if a ++ b = bp then bp :: mergeAll bp rest else a :: mergeAll bp (b :: rest)) = _
      rw [if_pos h]] at ht
    rcases List.mem_cons.mp ht with h2 | h2
    · exact Or.inl h2
    · rcases ih t h2 with h3 | h3
      · exact Or.inl h3
      · exact Or.inr (List.mem_cons_of_mem _ (List.mem_cons_of_mem _ h3))
  | case2 a b rest h ih =>
    intro t ht
    rw [show mergeAll bp (a :: b :: rest) = a :: mergeAll bp (b :: rest) from by
      show (if a ++ b = bp then bp :: mergeAll bp rest else a :: mergeAll bp (b :: rest)) = _
      rw [if_neg h]] at ht
    rcases List.mem_cons.mp ht with h2 | h2
    · exact Or.inr (h2 ▸ List.mem_cons_self _ _)
    · rcases ih t h2 with h3 | h3
      · exact Or.inl h3
      · exact Or.inr (List.mem_cons_of_mem _ h3)
  | case3 l h =>
    intro t ht
    cases l with
    | nil => exact Or.inr ht
    | cons a u =>
      cases u with
      | nil => exact Or.inr ht
      | cons b r => exact (h a b r rfl).elim

theorem mergeAll_length_le (bp : Token) :
    ∀ l : List Token, (mergeAll bp l).length ≤ l.length := by
  intro l
  induction l using mergeAll.induct bp with
  | case1 a b rest h ih =>
    rw [show mergeAll bp (a :: b :: rest) = bp :: mergeAll bp rest from by
      show (if a ++ b = bp then bp :: mergeAll bp rest else a :: mergeAll bp (b :: rest)) = _
      rw [if_pos h]]
    simp only [List.length_cons]
    omega
  | case2 a b rest h ih =>
    rw [show mergeAll bp (a :: b :: rest) = a :: mergeAll bp (b :: rest) from by
      show (if a ++ b = bp then bp :: mergeAll bp rest else a :: mergeAll bp (b :: rest)) = _
      rw [if_neg h]]
    simp only [List.length_cons] at ih ⊢
    omega
  | case3 l h =>
    cases l with
    | nil => exact Nat.le_refl _
    | cons a u =>
      cases u with
      | nil => exact Nat.le_refl _
      | cons b r => exact (h a b r rfl).elim

theorem mergeAll_length_lt (bp : Token) :
    ∀ l : List Token, bp ∈ adjPairs l → (mergeAll bp l).length < l.length := by
  intro l
  induction l using mergeAll.induct bp with
  | case1 a b rest h ih =>
    intro _
    rw [show mergeAll bp (a :: b :: rest) = bp :: mergeAll bp rest from by
      show (if a ++ b = bp then bp :: mergeAll bp rest else a :: mergeAll bp (b :: rest)) = _
      rw [if_pos h]]
    have := mergeAll_length_le bp rest
    simp only [List.length_cons]
    omega
  | case2 a b rest h ih =>
    intro hmem
    have hmem2 : bp ∈ adjPairs (b :: rest) := by
      simp only [adjPairs, List.zip_cons_cons, List.tail_cons, List.map_cons,
        List.mem_cons] at hmem
      rcases hmem with h2 | h2
      · exact absurd h2.symm h
      · simpa [adjPairs] using h2
    rw [show mergeAll bp (a :: b :: rest) = a :: mergeAll bp (b :: rest) from by
      show (if a ++ b = bp then bp :: mergeAll bp rest else a :: mergeAll bp (b :: rest)) = _
      rw [if_neg h]]
    have := ih hmem2
    simp only [List.length_cons] at this ⊢
    omega
  | case3 l h =>
    intro hmem
    cases l with
    | nil => simp [adjPairs] at hmem
    | cons a u =>
      cases u with
      | nil => simp [adjPairs] at hmem
      | cons b r => exact (h a b r rfl).elim

theorem joinT_singletons (sub : List Char) : joinT (sub.map (fun c => [c])) = sub := by
  induction sub with
  | nil => rfl
  | cons c rest ih =>
    simp only [joinT] at ih
    simp only [List.map_cons, joinT, List.flatten_cons]
    rw [ih]
    rfl

theorem bpeLoopFuel_inv (merges : List (Token × Nat)) :
    ∀ (fuel : Nat) (tokens : List Token),
      joinT (bpeLoopFuel merges fuel tokens) = joinT tokens ∧
      (∀ t ∈ bpeLoopFuel merges fuel tokens, t ∈ tokens ∨ t ∈ merges.map Prod.fst) := by
  intro fuel
  induction fuel with
  | zero => intro tokens; exact ⟨rfl, fun t ht => Or.inl ht⟩
  | succ fuel ih =>
    intro tokens
    by_cases h1 : 1 < tokens.length
    · cases hm : maxBySnd (get_pairs tokens) with
      | none =>
        have hstep : bpeLoopFuel merges (fuel + 1) tokens = tokens := by
          simp only [bpeLoopFuel, if_pos h1, hm]
        rw [hstep]
        exact ⟨rfl, fun t ht => Or.inl ht⟩
      | some bp =>
        by_cases hk : (merges.map Prod.fst).contains bp.1 = true
        · have hstep :
              bpeLoopFuel merges (fuel + 1) tokens =
                bpeLoopFuel merges fuel (mergeAll bp.1 tokens) := by
            simp only [bpeLoopFuel, if_pos h1, hm, hk, if_pos]
          have hrec := ih (mergeAll bp.1 tokens)
          constructor
          · rw [hstep, hrec.1, mergeAll_join]
          · intro t ht
            rw [hstep] at ht
            rcases hrec.2 t ht with h2 | h2
            · rcases mergeAll_sub bp.1 tokens t h2 with h3 | h3
              · refine Or.inr ?_
                rw [h3]
                exact List.mem_of_elem_eq_true hk
              · exact Or.inl h3
            · exact Or.inr h2
        · have hstep : bpeLoopFuel merges (fuel + 1) tokens = tokens := by
            simp only [bpeLoopFuel, if_pos h1, hm]
            rw [if_neg hk]
          rw [hstep]
          exact ⟨rfl, fun t ht => Or.inl ht⟩
    · have hstep : bpeLoopFuel merges (fuel + 1) tokens = tokens := by
        simp only [bpeLoopFuel, if_neg h1]
      rw [hstep]
      exact ⟨rfl, fun t ht => Or.inl ht⟩

/-- C5, amended: `_tokenize_subsequence` segments each gap by repeatedly
merging the most frequent adjacent pair of the current token list when
that pair is a key of the learned merge table, stopping as soon as the
most frequent pair is not in the table; stored ranks are never
consulted.  Consequently the replay is non-destructive (the emitted
tokens concatenate back to the gap) and only applies recorded merges:
every output token is a single character of the gap or a key of the
merge table. -/
theorem C5_gap_replay_sound (merges : List (Token × Nat)) (sub : List Char) :
    joinT (tokenize_subsequence merges sub) = sub ∧
    ∀ t ∈ tokenize_subsequence merges sub, t.length = 1 ∨ t ∈ merges.map Prod.fst := by
  have h := bpeLoopFuel_inv merges sub.length (sub.map (fun c => [c]))
  constructor
  · rw [tokenize_subsequence, h.1, joinT_singletons]
  · intro t ht
    rcases h.2 t ht with h2 | h2
    · rcases List.mem_map.mp h2 with ⟨c, _, hc⟩
      exact Or.inl (by rw [← hc]; rfl)
    · exact Or.inr h2

/-- C5 counterexample: with the merge table holding only GA (rank 0), the
code's gap replay on AAGA picks the most frequent pair AA first (ties
broken by first encounter), finds it absent from the table and stops with
four single characters, whereas rank-order replay as the claim describes
it would apply the rank-0 merge GA.  The two replays disagree, so replay
selection does consult gap pair frequencies, not only stored ranks. -/
theorem C5_counterexample_frequency_not_rank :
    tokenize_subsequence [(cs ("GA"), 0)] (cs ("AAGA")) = [cs ("A"), cs ("A"), cs ("G"), cs ("A")] ∧
    rankReplay [(cs ("GA"), 0)] (cs ("AAGA")) = [cs ("A"), cs ("A"), cs ("GA")] ∧
    tokenize_subsequence [(cs ("GA"), 0)] (cs ("AAGA")) ≠ rankReplay [(cs ("GA"), 0)] (cs ("AAGA")) := by
  exact ⟨by decide, by decide, by decide⟩

/-- C5 witness: the amended theorem instantiated at the merge table
holding only GA and the gap AAGA. -/
theorem C5_witness :
    joinT (tokenize_subsequence [(cs ("GA"), 0)] (cs ("AAGA"))) = cs ("AAGA") ∧
    ∀ t ∈ tokenize_subsequence [(cs ("GA"), 0)] (cs ("AAGA")),
      t.length = 1 ∨ t ∈ [(cs ("GA"), 0)].map Prod.fst :=
  C5_gap_replay_sound [(cs ("GA"), 0)] (cs ("AAGA"))

theorem withIntervals_erase (l : List Token) :
    ∀ off : Nat, (withIntervals off l).map (fun x => x.1) = l := by
  induction l with
  | nil => intro off; rfl
  | cons t ts ih =>
    intro off
    simp only [withIntervals, List.map_cons]
    rw [ih]

theorem withIntervals_flag_erase (l : List Token) (off : Nat) :
    ((withIntervals off l).map (fun x => (x.1, x.2.1, x.2.2, false))).map
        (fun x => x.1) = l := by
  rw [List.map_map]
  exact withIntervals_erase l off

theorem tokenizeInstrLoop_erase (merges : List (Token × Nat)) (s : List Char) :
    ∀ (positions : List (Nat × Token)) (cur : Nat),
      (tokenizeInstrLoop merges s positions cur).map (fun x => x.1) =
        tokenizeLoop merges s positions cur := by
  intro positions
  induction positions with
  | nil =>
    intro cur
    by_cases h : cur < s.length
    · simp only [tokenizeInstrLoop, tokenizeLoop, if_pos h]
      exact withIntervals_flag_erase _ cur
    · simp only [tokenizeInstrLoop, tokenizeLoop, if_neg h]
      rfl
  | cons pm rest ih =>
    intro cur
    obtain ⟨pos, motif⟩ := pm
    by_cases h : cur < pos
    · simp only [tokenizeInstrLoop, tokenizeLoop, if_pos h, List.map_append, List.map_cons]
      rw [ih, withIntervals_flag_erase]
    · simp only [tokenizeInstrLoop, tokenizeLoop, if_neg h, List.nil_append, List.map_cons]
      rw [ih]

/-- Instrumented tokenization erases to the source tokenization. -/
theorem tokenizeInstr_erases (tk : Tokenizer) (bank : MotifBank) (s : List Char) (now : Nat) :
    (tokenizeInstr tk bank s now).1.map (fun x => x.1) = (tokenize tk bank s now).1 ∧
    (tokenizeInstr tk bank s now).2 = (tokenize tk bank s now).2 := by
  exact ⟨tokenizeInstrLoop_erase tk.merges s _ 0, rfl⟩

theorem withIntervals_flag_filter (l : List Token) (off : Nat) :
    ((withIntervals off l).map (fun x => (x.1, x.2.1, x.2.2, false))).filter
        (fun x => x.2.2.2) = [] := by
  induction l generalizing off with
  | nil => rfl
  | cons t ts ih =>
    simp only [withIntervals, List.map_cons, List.filter_cons]
    exact ih (off + t.length)

theorem tokenizeInstrLoop_motif_filter (merges : List (Token × Nat)) (s : List Char) :
    ∀ (positions : List (Nat × Token)) (cur : Nat),
      (tokenizeInstrLoop merges s positions cur).filter (fun x => x.2.2.2) =
        positions.map (fun pm => (pm.2, pm.1, pm.1 + pm.2.length, true)) := by
  intro positions
  induction positions with
  | nil =>
    intro cur
    by_cases h : cur < s.length
    · simp only [tokenizeInstrLoop, if_pos h, List.map_nil]
      exact withIntervals_flag_filter _ cur
    · simp only [tokenizeInstrLoop, if_neg h, List.map_nil, List.filter_nil]
  | cons pm rest ih =>
    intro cur
    obtain ⟨pos, motif⟩ := pm
    by_cases h : cur < pos
    · simp only [tokenizeInstrLoop, if_pos h, List.filter_append, List.filter_cons,
        List.map_cons, withIntervals_flag_filter, List.nil_append]
      rw [ih]
      rfl
    · simp only [tokenizeInstrLoop, if_neg h, List.nil_append, List.filter_cons,
        List.map_cons]
      rw [ih]
      rfl

/-- C6, amended: `tokenize` emits one atomic motif token per FOUND MOTIF
ROW — the rows are located by a first-occurrence search and stably
sorted by that position — including rows whose sequence text duplicates
or overlaps an earlier row's.  A motif whose position lies at or before
the cursor still gets its token emitted (only the gap before it is
suppressed), so overlapping or duplicated occurrences are re-emitted
rather than dropped, and a character position can contribute to more
than one output token.  Formally: the motif-flagged entries of the
instrumented token stream are exactly the sorted found-position list,
one entry each, with interval `(pos, pos + len(motif))`. -/
theorem C6_motif_emissions_follow_found_rows (tk : Tokenizer) (bank : MotifBank)
    (s : List Char) (now : Nat) :
    (tokenizeInstr tk bank s now).1.filter (fun x => x.2.2.2) =
      (sortByPos (motifPositions (bank.find_motifs_in_sequence s now).1 s)).map
        (fun pm => (pm.2, pm.1, pm.1 + pm.2.length, true)) :=
  tokenizeInstrLoop_motif_filter tk.merges s _ 0

/-- C6 counterexample: with the default registry, two distinct rows
(conserved_1 and pattern_1) both carry the sequence UGUGA, so tokenizing
the five-character sequence UGUGA emits the atomic motif token TWICE;
the emitted tokens re-join to ten characters, so it is false that each
character position of the input contributes to exactly one output
token. -/
theorem C6_counterexample_duplicate_motif_token :
    (tokenize (mkTokenizer 1000 2) defaultBank (cs ("UGUGA")) 0).1 =
      [cs ("UGUGA"), cs ("UGUGA")] ∧
    joinT ((tokenize (mkTokenizer 1000 2) defaultBank (cs ("UGUGA")) 0).1) ≠ cs ("UGUGA") := by
  exact ⟨by decide, by decide⟩

/-- C7: tokenization is NOT idempotent once the merge table is fixed.
With the freshly constructed tokenizer (empty merge table — exactly the
table produced by training on an empty corpus) the sequence UGUGA
tokenizes to two copies of the atomic motif token UGUGA (the default
registry holds two rows with that sequence); re-joining gives the
ten-character string UGUGAUGUGA, whose tokenization additionally finds
the mmu_1 row UGUGAUG and emits a different token list, so re-tokenizing
the re-joined output differs from the first tokenization. -/
theorem C7_tokenize_not_idempotent :
    (tokenize (mkTokenizer 1000 2) defaultBank (cs ("UGUGA")) 0).1 =
      [cs ("UGUGA"), cs ("UGUGA")] ∧
    (tokenize (mkTokenizer 1000 2)
        ((tokenize (mkTokenizer 1000 2) defaultBank (cs ("UGUGA")) 0).2)
        (joinT ((tokenize (mkTokenizer 1000 2) defaultBank (cs ("UGUGA")) 0).1)) 1).1 =
      [cs ("UGUGA"), cs ("UGUGAUG"), cs ("UGUGA"),
        cs ("U"), cs ("G"), cs ("U"), cs ("G"), cs ("A")] ∧
    (tokenize (mkTokenizer 1000 2)
        ((tokenize (mkTokenizer 1000 2) defaultBank (cs ("UGUGA")) 0).2)
        (joinT ((tokenize (mkTokenizer 1000 2) defaultBank (cs ("UGUGA")) 0).1)) 1).1 ≠
      (tokenize (mkTokenizer 1000 2) defaultBank (cs ("UGUGA")) 0).1 := by
  exact ⟨by decide, by decide, by decide⟩

/-- C4: a replayed tokenization CAN produce a token whose interval in
the original sequence strictly crosses a motif-span boundary of that
sequence.  Training on the empty corpus succeeds and fixes the empty
merge table (first conjunct); tokenizing UGUGAUGCA with that trained
table emits the atomic motif token AUGCA over the interval `(4, 9)`
(second conjunct), while the motif spans of the original sequence
contain the UGUGA occurrence `(0, 5)` (third conjunct); since
`4 < 5 < 9`, the token strictly crosses that span's right boundary in
exactly the sense of the claim's predicate. -/
theorem C4_token_crosses_motif_boundary :
    train (mkTokenizer 1000 2) defaultBank [] 1 =
      some (Except.ok (mkTokenizer 1000 2)) ∧
    (cs ("AUGCA"), 4, 9, true) ∈
      (tokenizeInstr (mkTokenizer 1000 2) defaultBank (cs ("UGUGAUGCA")) 0).1 ∧
    (0, 5, ("conserved_1" : String)) ∈
      MotifSpanManager.get_motif_spans defaultBank (cs ("UGUGAUGCA")) ∧
    ((4 : Nat) < 5 ∧ (5 : Nat) < 9) := by
  exact ⟨by decide, by decide, by decide, by decide⟩

/-- Sanity check: the kernel-friendly motif-weight literal of
`mkTokenizer` is the rational 2.5. -/
theorem mkTokenizer_motif_weight (vs mf : Nat) :
    (mkTokenizer vs mf).motif_weight = 5 / 2 := by
  show (Rat.mk' 5 2 (by decide) (by decide) : ℚ) = 5 / 2
  rw [Rat.mk'_eq_divInt]
  norm_num [Rat.divInt_eq_div]

theorem get_pairs_with_scores_error (tk : Tokenizer) (bank : MotifBank)
    {sequences : List (List Char)} (h : sequences ≠ []) :
    get_pairs_with_scores tk bank sequences = Except.error PyError.attributeError := by
  cases sequences with
  | nil => exact absurd rfl h
  | cons a l => rfl

theorem trainBody_error (tk : Tokenizer) (bank : MotifBank) (st : TrainState)
    (h : st.corpus ≠ []) :
    trainBody tk bank st = Except.error PyError.attributeError := by
  have h2 : st.corpus.map joinT ≠ [] := by
    intro hc
    exact h (List.map_eq_nil_iff.mp hc)
  rw [trainBody, get_pairs_with_scores_error tk bank h2]
  rfl

/-- C1, amended: whenever the merge loop body of `train` executes at
least once — the corpus is non-empty and the initial vocabulary (tokens
with frequency at least min_freq) is smaller than vocab_size, as is
always the case with the default vocab_size 1000 on a non-empty
nucleotide corpus — `train` raises `AttributeError` before learning any
merge, because the statistics pass calls `get_motif_spans` (and the two
pair classifiers) on the tokenizer's `MotifBank`, which defines none of
these operations; they exist only on `MotifSpanManager`, which the
tokenizer never constructs. -/
theorem C1_train_raises_attributeError (vs mf : Nat) (bank : MotifBank)
    (sequences : List (List Char)) (fuel : Nat) (hseq : sequences ≠ [])
    (hvocab : (initialVocab (tokenFreqCount [] sequences) mf).card < vs)
    (hfuel : 1 ≤ fuel) :
    train (mkTokenizer vs mf) bank sequences fuel =
      some (Except.error PyError.attributeError) := by
  cases fuel with
  | zero => omega
  | succ f =>
    have hc : (sequences.map (fun s => s.map (fun c => [c]))) ≠ [] := by
      intro hc
      exact hseq (List.map_eq_nil_iff.mp hc)
    have hbody := trainBody_error (mkTokenizer vs mf) bank
      { corpus := sequences.map (fun s => s.map (fun c => [c]))
        merges := []
        current_vocab := initialVocab (tokenFreqCount [] sequences) mf } hc
    simp only [train, trainLoop, mkTokenizer] at hbody ⊢
    rw [if_pos hvocab, hbody]

/-- C1 witness: the default tokenizer (vocab_size 1000, min_freq 2) on
the one-sequence nucleotide corpus UGUGA crashes with AttributeError. -/
theorem C1_witness :
    train (mkTokenizer 1000 2) defaultBank [cs ("UGUGA")] 1 =
      some (Except.error PyError.attributeError) :=
  C1_train_raises_attributeError 1000 2 defaultBank [cs ("UGUGA")] 1
    (by decide) (by decide) (by decide)

/-- C1 counterexample: a tokenizer constructed with vocab_size 0 trains
on the NON-empty corpus containing the single sequence A without any
exception, returning normally with an empty merge table — so it is
false that train raises on every non-empty list of training sequences
and succeeds only on an empty corpus. -/
theorem C1_counterexample_nonempty_success :
    train (mkTokenizer 0 2) defaultBank [cs ("A")] 1 =
      some (Except.ok { mkTokenizer 0 2 with
        vocab := ∅
        merges := []
        token_frequencies := [(cs ("A"), 1)] }) := by
  decide

/-- C2: the training loop does NOT halt through the three documented
stopping conditions: on the spec's own scenario corpus UGUGAUGUGA (with
vocab_size 10) the first statistics pass raises AttributeError for
every fuel bound, so the loop terminates abnormally before any stopping
condition can fire.  (Had the three span operations been present, the
loop would not terminate at all for such inputs: the statistics are
recomputed from the re-joined corpus, which merging never changes, so
the vocabulary stops growing while the loop condition stays true — see
theorem trainLoopFixed_diverges.) -/
theorem C2_train_terminates_by_crash_not_by_stopping_conditions (fuel : Nat)
    (hfuel : 1 ≤ fuel) :
    train (mkTokenizer 10 2) defaultBank [cs ("UGUGAUGUGA")] fuel =
      some (Except.error PyError.attributeError) := by
  cases fuel with
  | zero => omega
  | succ f => rfl

/-- C2 witness: the statement at fuel 1. -/
theorem C2_witness :
    train (mkTokenizer 10 2) defaultBank [cs ("UGUGAUGUGA")] 1 =
      some (Except.error PyError.attributeError) :=
  C2_train_terminates_by_crash_not_by_stopping_conditions 1 (by decide)

/-- C3: the per-iteration statistics are NOT computed over the current
(possibly merged) corpus symbols.  `train` passes the RE-JOINED corpus
strings to `_get_pairs_with_scores`, which re-splits each into single
characters, so after the first iteration merges the corpus of `["AAAA"]`
into `[["AA","AA"]]`, the second-iteration statistics still count the
character pair (A,A) three times — with the missing span operations
bound to `MotifSpanManager`'s implementations — whereas the claimed
current-symbol statistics count the single symbol pair (AA,AA) spanning
the character interval `(0, 4)` once.  The two statistics differ, so
iteration n+1 does not reflect the merges of iterations 1..n.  (In the
unrepaired code the pass raises AttributeError before counting
anything, per C1.) -/
theorem C3_statistics_ignore_prior_merges :
    get_pairs_with_scores_fixed (mkTokenizer 10 1) defaultBank [cs ("AAAA")] =
      [(cs ("AA"), 3)] ∧
    specSymbolPairScores (mkTokenizer 10 1) defaultBank [[cs ("AA"), cs ("AA")]] =
      [(cs ("AAAA"), 1)] ∧
    ([(cs ("AA"), (3 : ℚ))] : List (Token × ℚ)) ≠ [(cs ("AAAA"), 1)] := by
  refine ⟨?_, ?_, ?_⟩
  · have hstats :
        ([cs ("AAAA")].foldl
          (fun stats seq =>
            countPairsFixedAux (MotifSpanManager.get_motif_spans defaultBank seq) 0 seq stats)
          ([] : List (Token × PairStats))) = [(cs ("AA"), ⟨3, 0, 0⟩)] := by
      decide
    rw [get_pairs_with_scores_fixed, hstats]
    simp only [List.map_cons, List.map_nil, scoreOf, mkTokenizer]
    norm_num
  · have hstats :
        ([[cs ("AA"), cs ("AA")]].foldl
          (fun stats seq =>
            specCountSymbolPairsAux (MotifSpanManager.get_motif_spans defaultBank (joinT seq))
              0 seq stats)
          ([] : List (Token × PairStats))) = [(cs ("AAAA"), ⟨1, 0, 0⟩)] := by
      decide
    rw [specSymbolPairScores, hstats]
    simp only [List.map_cons, List.map_nil, scoreOf, mkTokenizer]
    norm_num
  · intro h
    have := List.head_eq_of_cons_eq h
    exact absurd (congrArg Prod.fst this) (by decide)

/-- C9: saving the tokenizer state and loading it back (into any
tokenizer object) restores a vocabulary equal as a set to the saved one,
the identical pair-to-rank merge mapping in the identical stored order,
and the saved vocab_size / min_freq — for every enumeration order
Python may choose for `list(self.vocab)`. -/
theorem C9_save_load_round_trip (tk tk2 : Tokenizer) (vocabList : List Token)
    (henum : vocabList.toFinset = tk.vocab) :
    (load tk2 (save tk vocabList)).vocab = tk.vocab ∧
    (load tk2 (save tk vocabList)).merges = tk.merges ∧
    (load tk2 (save tk vocabList)).vocab_size = tk.vocab_size ∧
    (load tk2 (save tk vocabList)).min_freq = tk.min_freq ∧
    (load tk2 (save tk vocabList)).token_frequencies = tk.token_frequencies := by
  refine ⟨?_, rfl, rfl, rfl, rfl⟩
  show (save tk vocabList).vocab.toFinset = tk.vocab
  exact henum

/-- C9 witness: a concrete round trip with a two-token vocabulary
enumerated in reversed order. -/
theorem C9_witness :
    (load (mkTokenizer 7 3)
        (save { mkTokenizer 10 1 with
                  vocab := {cs ("A"), cs ("GA")}
                  merges := [(cs ("GA"), 0), (cs ("AGA"), 1)] }
          [cs ("GA"), cs ("A")])).vocab =
      ({cs ("A"), cs ("GA")} : Finset Token) ∧
    (load (mkTokenizer 7 3)
        (save { mkTokenizer 10 1 with
                  vocab := {cs ("A"), cs ("GA")}
                  merges := [(cs ("GA"), 0), (cs ("AGA"), 1)] }
          [cs ("GA"), cs ("A")])).merges =
      [(cs ("GA"), 0), (cs ("AGA"), 1)] ∧
    (load (mkTokenizer 7 3)
        (save { mkTokenizer 10 1 with
                  vocab := {cs ("A"), cs ("GA")}
                  merges := [(cs ("GA"), 0), (cs ("AGA"), 1)] }
          [cs ("GA"), cs ("A")])).vocab_size = 10 ∧
    (load (mkTokenizer 7 3)
        (save { mkTokenizer 10 1 with
                  vocab := {cs ("A"), cs ("GA")}
                  merges := [(cs ("GA"), 0), (cs ("AGA"), 1)] }
          [cs ("GA"), cs ("A")])).min_freq = 1 ∧
    (load (mkTokenizer 7 3)
        (save { mkTokenizer 10 1 with
                  vocab := {cs ("A"), cs ("GA")}
                  merges := [(cs ("GA"), 0), (cs ("AGA"), 1)] }
          [cs ("GA"), cs ("A")])).token_frequencies = [] :=
  C9_save_load_round_trip
    { mkTokenizer 10 1 with
        vocab := {cs ("A"), cs ("GA")}
        merges := [(cs ("GA"), 0), (cs ("AGA"), 1)] }
    (mkTokenizer 7 3) [cs ("GA"), cs ("A")] (by decide)

theorem bumpFold_characterization (now : Nat) :
    ∀ (found rows : List MotifRow),
      found.foldl (fun rs m => bumpRow m.motif_id now rs) rows =
        rows.map (fun r =>
          { r with
            frequency := r.frequency + found.countP (fun m => m.motif_id == r.motif_id)
            last_updated :=
              if found.countP (fun m => m.motif_id == r.motif_id) = 0 then r.last_updated
              else now }) := by
  intro found
  induction found with
  | nil =>
    intro rows
    simp only [List.foldl_nil, List.countP_nil, Nat.add_zero]
    induction rows with
    | nil => rfl
    | cons r rs ihr =>
      simp only [List.map_cons] at ihr ⊢
      rw [← ihr]
      cases r
      simp
  | cons m fs ih =>
    intro rows
    simp only [List.foldl_cons]
    rw [ih (bumpRow m.motif_id now rows), bumpRow, List.map_map]
    apply List.map_congr_left
    intro r _
    simp only [Function.comp_apply]
    by_cases hid : r.motif_id = m.motif_id
    · rw [if_pos hid]
      have hcnt : (m :: fs).countP (fun m2 => m2.motif_id == r.motif_id) =
          fs.countP (fun m2 => m2.motif_id == r.motif_id) + 1 := by
        rw [List.countP_cons]
        simp [hid.symm]
      cases r
      simp [hcnt]
      omega
    · rw [if_neg hid]
      have hcnt : (m :: fs).countP (fun m2 => m2.motif_id == r.motif_id) =
          fs.countP (fun m2 => m2.motif_id == r.motif_id) := by
        rw [List.countP_cons]
        have hbe : (m.motif_id == r.motif_id) = false := by
          simp only [beq_eq_false_iff_ne, ne_eq]
          exact fun he => hid he.symm
        simp [hbe]
      rw [hcnt]

/-- C10, amended: the span query `MotifSpanManager.get_motif_spans` is a
pure function of the registry (the source method only reads
`motifs_df`, so it is modelled without a state effect), but the
occurrence query `MotifBank.find_motifs_in_sequence` is NOT
state-preserving: it returns the dataframe rows whose sequence occurs
in the input, and as a side effect increments each row's frequency by
the number of found rows sharing its motif_id (one per found row, so
exactly one when ids are unique) and stamps its last_updated with the
query time.  No separate record_occurrence operation exists in the
code: frequency counting happens inside the find query itself. -/
theorem C10_find_motifs_effect (bank : MotifBank) (s : List Char) (now : Nat) :
    (bank.find_motifs_in_sequence s now).1 =
      bank.motifs_df.filter (fun m => (strFind s m.sequence 0).isSome) ∧
    (bank.find_motifs_in_sequence s now).2.motifs_df =
      bank.motifs_df.map (fun r =>
        { r with
          frequency := r.frequency +
            (bank.motifs_df.filter (fun m => (strFind s m.sequence 0).isSome)).countP
              (fun m => m.motif_id == r.motif_id)
          last_updated :=
            if (bank.motifs_df.filter (fun m => (strFind s m.sequence 0).isSome)).countP
                (fun m => m.motif_id == r.motif_id) = 0 then r.last_updated
            else now }) :=
  ⟨rfl, bumpFold_characterization now _ bank.motifs_df⟩

/-- C10 counterexample: querying which motifs occur in UGUGA mutates
the registry — the frequency of conserved_1 goes from 0 to 1 — so the
registry state after the query differs from the state before it. -/
theorem C10_counterexample_query_mutates :
    ((MotifBank.find_motifs_in_sequence defaultBank (cs ("UGUGA")) 1).2.motifs_df.map
        (fun r => (r.motif_id, r.frequency))).filter
        (fun p => p.1 == ("conserved_1" : String)) =
      [(("conserved_1" : String), 1)] ∧
    (defaultBank.motifs_df.map (fun r => (r.motif_id, r.frequency))).filter
        (fun p => p.1 == ("conserved_1" : String)) =
      [(("conserved_1" : String), 0)] ∧
    (MotifBank.find_motifs_in_sequence defaultBank (cs ("UGUGA")) 1).2 ≠ defaultBank := by
  refine ⟨by decide, by decide, by decide⟩

theorem matchAt_false_of_len {s pat : List Char} {i : Nat} (h : s.length < i) :
    matchAt s pat i = false := by
  simp only [matchAt, decide_eq_false_iff_not]
  intro hc
  omega

theorem strFindAux_some {s pat : List Char} :
    ∀ {fuel start idx : Nat}, strFindAux s pat fuel start = some idx →
      start ≤ idx ∧ idx ≤ s.length ∧ matchAt s pat idx = true ∧
        ∀ j, start ≤ j → j < idx → matchAt s pat j = false := by
  intro fuel
  induction fuel with
  | zero => intro start idx h; simp [strFindAux] at h
  | succ fuel ih =>
    intro start idx h
    by_cases hs : start ≤ s.length
    · cases hmb : matchAt s pat start with
      | true =>
        simp only [strFindAux, if_pos hs, hmb, if_true] at h
        cases h
        exact ⟨Nat.le_refl _, hs, hmb, fun j hj1 hj2 => absurd hj1 (by omega)⟩
      | false =>
        simp only [strFindAux, if_pos hs, hmb] at h
        obtain ⟨h1, h2, h3, h4⟩ := ih h
        refine ⟨by omega, h2, h3, fun j hj1 hj2 => ?_⟩
        rcases Nat.eq_or_lt_of_le hj1 with rfl | hlt
        · exact hmb
        · exact h4 j hlt hj2
    · simp only [strFindAux, if_neg hs] at h
      exact absurd h (by simp)

theorem strFindAux_none {s pat : List Char} :
    ∀ (fuel start : Nat), s.length + 1 ≤ fuel + start →
      strFindAux s pat fuel start = none →
      ∀ j, start ≤ j → matchAt s pat j = false := by
  intro fuel
  induction fuel with
  | zero =>
    intro start hf _ j hj
    exact matchAt_false_of_len (by omega)
  | succ fuel ih =>
    intro start hf h j hj
    by_cases hs : start ≤ s.length
    · cases hmb : matchAt s pat start with
      | true =>
        simp only [strFindAux, if_pos hs, hmb, if_true] at h
        exact absurd h (by simp)
      | false =>
        simp only [strFindAux, if_pos hs, hmb] at h
        rcases Nat.eq_or_lt_of_le hj with rfl | hlt
        · exact hmb
        · exact ih (start + 1) (by omega) h j hlt
    · exact matchAt_false_of_len (by omega)

theorem spansLoop_mem {s pat : List Char} {id : String} :
    ∀ (fuel start : Nat), s.length + 1 ≤ fuel + start →
      ∀ x : Span, x ∈ spansLoop s pat id fuel start ↔
        ∃ i, start ≤ i ∧ matchAt s pat i = true ∧ x = (i, i + pat.length, id) := by
  intro fuel
  induction fuel with
  | zero =>
    intro start hf x
    constructor
    · intro hx; simp [spansLoop] at hx
    · rintro ⟨i, hi1, hi2, _⟩
      rw [matchAt_false_of_len (show s.length < i by omega)] at hi2
      cases hi2
  | succ fuel ih =>
    intro start hf x
    cases hfind : strFind s pat start with
    | none =>
      have hnone := strFindAux_none (s.length + 1 - start) start (by omega) hfind
      simp only [spansLoop, hfind]
      constructor
      · intro hx; simp at hx
      · rintro ⟨i, hi1, hi2, _⟩
        rw [hnone i hi1] at hi2
        cases hi2
    | some idx =>
      obtain ⟨hle, hlen, hmatch, hmin⟩ := strFindAux_some hfind
      simp only [spansLoop, hfind]
      constructor
      · intro hx
        rcases List.mem_cons.mp hx with hx | hx
        · exact ⟨idx, hle, hmatch, hx⟩
        · obtain ⟨i, hi1, hi2, hx2⟩ := (ih (idx + 1) (by omega) x).mp hx
          exact ⟨i, by omega, hi2, hx2⟩
      · rintro ⟨i, hi1, hi2, hx2⟩
        by_cases hcase : i = idx
        · subst hcase
          exact List.mem_cons.mpr (Or.inl hx2)
        · have hgt : idx + 1 ≤ i := by
            rcases Nat.lt_or_ge i idx with hl | hg
            · rw [hmin i hi1 hl] at hi2; cases hi2
            · omega
          exact List.mem_cons.mpr
            (Or.inr ((ih (idx + 1) (by omega) x).mpr ⟨i, hgt, hi2, hx2⟩))

/-- C8, amended: for every registry and sequence, the span query returns
exactly the exact-substring occurrences of each registry motif — a span
`(i, i + len(m.sequence), m.motif_id)` for a motif row m precisely when
the slice of s at `i` equals `m.sequence` (overlapping occurrences
included, as found by the restart-at-match_start+1 search) — and every
returned span `(start, end)` satisfies `0 ≤ start ≤ end ≤ len(s)` with
`s[start:end]` equal to the motif's sequence, where `start < end` holds
whenever that motif's sequence is non-empty.  (The original strict
`start < end` fails only for a motif whose sequence is the empty
string, which `add_motif` does not rule out; see the counterexample.) -/
theorem C8_get_motif_spans_characterization (bank : MotifBank) (s : List Char) :
    (∀ x : Span, x ∈ MotifSpanManager.get_motif_spans bank s ↔
      ∃ m ∈ bank.motifs_df, ∃ i, matchAt s m.sequence i = true ∧
        x = (i, i + m.sequence.length, m.motif_id)) ∧
    (∀ x ∈ MotifSpanManager.get_motif_spans bank s,
      x.1 ≤ x.2.1 ∧ x.2.1 ≤ s.length ∧
      ∃ m ∈ bank.motifs_df, x.2.2 = m.motif_id ∧
        (s.drop x.1).take (x.2.1 - x.1) = m.sequence ∧
        (m.sequence ≠ [] → x.1 < x.2.1)) := by
  have hmem : ∀ x : Span, x ∈ MotifSpanManager.get_motif_spans bank s ↔
      ∃ m ∈ bank.motifs_df, ∃ i, matchAt s m.sequence i = true ∧
        x = (i, i + m.sequence.length, m.motif_id) := by
    intro x
    rw [MotifSpanManager.get_motif_spans, List.mem_flatMap]
    constructor
    · rintro ⟨m, hm, hx⟩
      obtain ⟨i, _, hi2, hx2⟩ :=
        (spansLoop_mem (s.length + 1) 0 (by omega) x).mp hx
      exact ⟨m, hm, i, hi2, hx2⟩
    · rintro ⟨m, hm, i, hi2, hx2⟩
      exact ⟨m, hm,
        (spansLoop_mem (s.length + 1) 0 (by omega) x).mpr
          ⟨i, Nat.zero_le _, hi2, hx2⟩⟩
  refine ⟨hmem, fun x hx => ?_⟩
  obtain ⟨m, hm, i, hi2, hx2⟩ := (hmem x).mp hx
  obtain ⟨hlen, hslice⟩ := of_decide_eq_true hi2
  subst hx2
  refine ⟨by dsimp only; omega, by dsimp only; omega, m, hm, rfl, ?_, fun hne => ?_⟩
  · dsimp only
    have h2 : i + m.sequence.length - i = m.sequence.length := by omega
    rw [h2, hslice]
  · dsimp only
    have h2 : 0 < m.sequence.length := List.length_pos.mpr hne
    omega

/-- C8 witness: the characterization instantiated at the degenerate
one-motif registry and the one-character sequence A. -/
theorem C8_witness :
    (∀ x : Span, x ∈ MotifSpanManager.get_motif_spans emptySeqBank (cs ("A")) ↔
      ∃ m ∈ emptySeqBank.motifs_df, ∃ i, matchAt (cs ("A")) m.sequence i = true ∧
        x = (i, i + m.sequence.length, m.motif_id)) ∧
    (∀ x ∈ MotifSpanManager.get_motif_spans emptySeqBank (cs ("A")),
      x.1 ≤ x.2.1 ∧ x.2.1 ≤ (cs ("A")).length ∧
      ∃ m ∈ emptySeqBank.motifs_df, x.2.2 = m.motif_id ∧
        ((cs ("A")).drop x.1).take (x.2.1 - x.1) = m.sequence ∧
        (m.sequence ≠ [] → x.1 < x.2.1)) :=
  C8_get_motif_spans_characterization emptySeqBank (cs ("A"))

/-- C8 counterexample: a registry may contain a motif with the empty
sequence (`add_motif` performs no validation), and then the span query
returns the degenerate span `(0, 0)` on the sequence A, refuting the
claimed strict bound `start < end` for every returned span. -/
theorem C8_counterexample_degenerate_span :
    (0, 0, ("m0" : String)) ∈ MotifSpanManager.get_motif_spans emptySeqBank (cs ("A")) ∧
    ¬ ∀ x ∈ MotifSpanManager.get_motif_spans emptySeqBank (cs ("A")), x.1 < x.2.1 := by
  refine ⟨by decide, by decide⟩

theorem score_AAAA :
    get_pairs_with_scores_fixed (mkTokenizer 10 1) defaultBank [cs ("AAAA")] =
      [(cs ("AA"), 3)] := by
  have hstats :
      ([cs ("AAAA")].foldl
        (fun stats seq =>
          countPairsFixedAux (MotifSpanManager.get_motif_spans defaultBank seq) 0 seq stats)
        ([] : List (Token × PairStats))) = [(cs ("AA"), ⟨3, 0, 0⟩)] := by
    decide
  rw [get_pairs_with_scores_fixed, hstats]
  simp only [List.map_cons, List.map_nil, scoreOf, mkTokenizer]
  norm_num

theorem trainBodyFixed_step1 :
    trainBodyFixed (mkTokenizer 10 1) defaultBank
      { corpus := [(cs ("AAAA")).map (fun c => [c])]
        merges := []
        current_vocab := initialVocab (tokenFreqCount [] [cs ("AAAA")]) 1 } =
      Sum.inl { corpus := [[cs ("AA"), cs ("AA")]]
                merges := [(cs ("AA"), 0)]
                current_vocab := {cs ("AA"), cs ("A")} } := by
  have hjoin :
      ({ corpus := [(cs ("AAAA")).map (fun c => [c])]
         merges := []
         current_vocab := initialVocab (tokenFreqCount [] [cs ("AAAA")]) 1 :
          TrainState }).corpus.map joinT = [cs ("AAAA")] := by decide
  rw [trainBodyFixed, hjoin, score_AAAA]
  simp only [maxBySnd]
  rw [if_neg (by norm_num : ¬ ((cs ("AA"), (3 : ℚ)).2 ≤ 0))]
  rfl

theorem trainBodyFixed_step2 :
    trainBodyFixed (mkTokenizer 10 1) defaultBank
      { corpus := [[cs ("AA"), cs ("AA")]]
        merges := [(cs ("AA"), 0)]
        current_vocab := {cs ("AA"), cs ("A")} } = Sum.inl divergedState := by
  have hjoin :
      ({ corpus := [[cs ("AA"), cs ("AA")]]
         merges := [(cs ("AA"), 0)]
         current_vocab := {cs ("AA"), cs ("A")} : TrainState }).corpus.map joinT =
        [cs ("AAAA")] := by decide
  rw [trainBodyFixed, hjoin, score_AAAA]
  simp only [maxBySnd]
  rw [if_neg (by norm_num : ¬ ((cs ("AA"), (3 : ℚ)).2 ≤ 0))]
  rfl

theorem trainBodyFixed_fixpoint :
    trainBodyFixed (mkTokenizer 10 1) defaultBank divergedState = Sum.inl divergedState := by
  have hjoin : divergedState.corpus.map joinT = [cs ("AAAA")] := by decide
  rw [trainBodyFixed, hjoin, score_AAAA]
  simp only [maxBySnd]
  rw [if_neg (by norm_num : ¬ ((cs ("AA"), (3 : ℚ)).2 ≤ 0))]
  rfl

theorem trainLoopFixed_stuck :
    ∀ fuel, trainLoopFixed (mkTokenizer 10 1) defaultBank fuel divergedState = none := by
  intro fuel
  induction fuel with
  | zero => rfl
  | succ f ih =>
    show trainLoopFixed (mkTokenizer 10 1) defaultBank (f + 1) divergedState = none
    rw [trainLoopFixed,
      if_pos (by decide : divergedState.current_vocab.card < (mkTokenizer 10 1).vocab_size),
      trainBodyFixed_fixpoint]
    exact ih

/-- Training does not terminate even once the three missing span
operations are supplied (bound to `MotifSpanManager`'s
implementations): on the corpus ["AAAA"] with vocab_size 10 and
min_freq 1 the repaired loop exhausts every fuel bound.  After two
iterations the state reaches the fixpoint `divergedState`: the
statistics are recomputed from the re-joined corpus, which no merge
application changes, so the same pair keeps winning with a positive
score while the vocabulary has stopped growing — no stopping condition
of the loop ever fires. -/
theorem trainLoopFixed_diverges (fuel : Nat) :
    trainLoopFixed (mkTokenizer 10 1) defaultBank fuel
      { corpus := [(cs ("AAAA")).map (fun c => [c])]
        merges := []
        current_vocab := initialVocab (tokenFreqCount [] [cs ("AAAA")]) 1 } = none := by
  cases fuel with
  | zero => rfl
  | succ f =>
    show trainLoopFixed (mkTokenizer 10 1) defaultBank (f + 1)
      { corpus := [(cs ("AAAA")).map (fun c => [c])]
        merges := []
        current_vocab := initialVocab (tokenFreqCount [] [cs ("AAAA")]) 1 } = none
    rw [trainLoopFixed,
      if_pos (by decide :
        ({ corpus := [(cs ("AAAA")).map (fun c => [c])]
           merges := []
           current_vocab := initialVocab (tokenFreqCount [] [cs ("AAAA")]) 1 :
            TrainState }).current_vocab.card < (mkTokenizer 10 1).vocab_size),
      trainBodyFixed_step1]
    cases f with
    | zero => rfl
    | succ g =>
      show trainLoopFixed (mkTokenizer 10 1) defaultBank (g + 1)
        { corpus := [[cs ("AA"), cs ("AA")]]
          merges := [(cs ("AA"), 0)]
          current_vocab := {cs ("AA"), cs ("A")} } = none
      rw [trainLoopFixed,
        if_pos (by decide :
          ({ corpus := [[cs ("AA"), cs ("AA")]]
             merges := [(cs ("AA"), 0)]
             current_vocab := {cs ("AA"), cs ("A")} : TrainState }).current_vocab.card <
            (mkTokenizer 10 1).vocab_size),
        trainBodyFixed_step2]
      exact trainLoopFixed_stuck g
